import Mathlib

/-!
# hyperate: a rate-limiting `http.RoundTripper`

A shallow embedding of `hyperate.go` (package `hyperate`) together with the
small parts of the Go standard library and of `golang.org/x/time/rate` that the
package calls, followed by theorems about `RoundTrip`, `New`, the options and
the response hook installed by `WithRateLimitHeaderCheck`.

Conventions of the embedding.

* A Go `error` value is `Option Error` (`none` is `nil`); a `*http.Response` is
  `Option Response`; a `*rate.Limiter` is `Option Nat`, an address into the
  store of limiters held by `World`.
* A Go string is a sequence of bytes; here it is a `String`, read character by
  character. A character outside ASCII stands for its UTF-8 bytes, none of
  which is a digit, a sign or a header token byte, so both readings agree on
  every test made here; lengths are counted in bytes (`utf8ByteSize`).
* Go's `int` is the 64 bit signed integer of the usual targets
  (`strconv.IntSize = 64`); values are `Int`, and every bound is explicit.
* `rate.Limit` is a `float64`. Only finite values occur; they are rationals, so
  `Limit` is `ℚ`, and the conversion `rate.Limit(n)` of an `int` is the IEEE 754
  round-to-nearest-even of `n` to 53 significant bits.
* Stateful code is a function `World → result × World`. `World` carries the
  limiters and a trace of the calls made, in order.
* `Atoi` follows the Go source, fast path and slow path; `Atoi_ok_iff` shows
  that it accepts an optional sign followed by decimal digits, for a value from
  `-2^63` to `2^63 - 1`, and nothing else.
-/

namespace Hyperate

/-! ## strconv -/

/-- The two sentinel errors of package strconv. -/
inductive NumErrKind where
  | ErrSyntax
  | ErrRange
  deriving DecidableEq, Repr

/-- Go `strconv.NumError`: the failing function, the input and the reason. -/
structure NumError where
  Func : String
  Num : String
  Err : NumErrKind
  deriving DecidableEq, Repr

def syntaxError (fn str : String) : NumError := ⟨fn, str, NumErrKind.ErrSyntax⟩

def rangeError (fn str : String) : NumError := ⟨fn, str, NumErrKind.ErrRange⟩

/-- Go `strconv.IntSize` on a 64 bit target. -/
def intSize : Nat := 64

/-- Go `math.MaxUint64`. -/
def maxUint64 : Nat := 2 ^ 64 - 1

/-- The digit loop of `strconv.ParseUint(s, 10, 0)`: `n` is the value read so
far, `s0` the whole input (kept for the error). A byte that is not a decimal
digit is a syntax error; a value above `maxVal = 2^64 - 1` is a range error,
reported as soon as it is reached. The result is Go's `(uint64, error)`. -/
def parseUintLoop (s0 : String) : List Char → Nat → Nat × Option NumError
  | [], n => (n, none)
  | c :: cs, n =>
    if 48 ≤ c.toNat ∧ c.toNat ≤ 57 then
      let d := c.toNat - 48
      if n ≥ maxUint64 / 10 + 1 then
        (2 ^ intSize - 1, some (rangeError "ParseUint" s0))
      else
        let n1 := n * 10 + d
        if n1 > 2 ^ intSize - 1 then
          (2 ^ intSize - 1, some (rangeError "ParseUint" s0))
        else
          parseUintLoop s0 cs n1
    else
      (0, some (syntaxError "ParseUint" s0))

/-- Go `strconv.ParseUint(s, 10, 0)`. -/
def ParseUint (s : List Char) : Nat × Option NumError :=
  match s with
  | [] => (0, some (syntaxError "ParseUint" ""))
  | _ => parseUintLoop (String.mk s) s 0

/-- Go `strconv.ParseInt(s, 10, 0)`: an optional sign, then `ParseUint`, then
the range check against `cutoff = 2^63`. -/
def ParseInt (s0 : String) : Int × Option NumError :=
  match s0.toList with
  | [] => (0, some (syntaxError "ParseInt" s0))
  | c :: cs =>
    let neg := c = '-'
    let s := if c = '+' ∨ c = '-' then cs else c :: cs
    match ParseUint s with
    | (_, some ⟨_, _, NumErrKind.ErrSyntax⟩) => (0, some (syntaxError "ParseInt" s0))
    | (un, _) =>
      let cutoff : Nat := 2 ^ (intSize - 1)
      if ¬ neg ∧ un ≥ cutoff then
        ((cutoff : Int) - 1, some (rangeError "ParseInt" s0))
      else if neg ∧ un > cutoff then
        (-(cutoff : Int), some (rangeError "ParseInt" s0))
      else
        (if neg then -(un : Int) else (un : Int), none)

/-- The digit loop of the fast path of `strconv.Atoi`. -/
def atoiFastLoop (s0 : String) : List Char → Int → Int × Option NumError
  | [], n => (n, none)
  | ch :: cs, n =>
    if ch.toNat < 48 ∨ ch.toNat - 48 > 9 then
      (0, some (syntaxError "Atoi" s0))
    else
      atoiFastLoop s0 cs (n * 10 + ((ch.toNat - 48 : Nat) : Int))

/-- Go `strconv.Atoi`. Inputs of 1 to 18 bytes take the fast path (they cannot
overflow an `int`); everything else goes through `ParseInt(s, 10, 0)`, whose
error, if any, is renamed to come from `Atoi`. The result is Go's
`(int, error)`. -/
def Atoi (s : String) : Int × Option NumError :=
  let sLen := s.utf8ByteSize
  if 0 < sLen ∧ sLen < 19 then
    match s.toList with
    | [] => (0, some (syntaxError "Atoi" s))
    | c :: cs =>
      let digits := if c = '-' ∨ c = '+' then cs else c :: cs
      if (c = '-' ∨ c = '+') ∧ digits.length < 1 then
        (0, some (syntaxError "Atoi" s))
      else
        match atoiFastLoop s digits 0 with
        | (_, some e) => (0, some e)
        | (n, none) => (if c = '-' then -n else n, none)
  else
    match ParseInt s with
    | (i64, some nerr) => (i64, some { nerr with Func := "Atoi" })
    | (i64, none) => (i64, none)

/-! ## golang.org/x/time/rate -/

/-- Go `rate.Limit`, a `float64` number of events per second. -/
abbrev Limit := ℚ

/-- The number of low bits a natural number below `2^64` loses when it is
stored in the 53 bit significand of a `float64`: the least `e` with
`m < 2^(53+e)`. -/
def float64Shift (m : Nat) : Nat :=
  ((List.range 12).find? (fun e => decide (m < 2 ^ (53 + e)))).getD 11

/-- The `float64` nearest to the natural number `m < 2^64`, ties to the even
significand (IEEE 754 round-to-nearest-even). -/
def roundFloat64 (m : Nat) : Nat :=
  let e := float64Shift m
  let q := m / 2 ^ e
  let r := m % 2 ^ e
  if 2 * r < 2 ^ e then q * 2 ^ e
  else if 2 * r > 2 ^ e then (q + 1) * 2 ^ e
  else if q % 2 = 0 then q * 2 ^ e
  else (q + 1) * 2 ^ e

/-- The Go conversion `rate.Limit(n)` of an `int` to `float64`. -/
def Limit.ofInt (n : Int) : Limit :=
  if n < 0 then -((roundFloat64 n.natAbs : Nat) : ℚ) else ((roundFloat64 n.natAbs : Nat) : ℚ)

/-- Go `rate.Limiter`, as far as this package uses it: the refill rate, which
`SetLimit` replaces, and the burst size. The token count and the clock that
`Wait` consults are not modelled; `Wait` is a parameter of `RoundTrip`. -/
structure Limiter where
  limit : Limit
  burst : Int
  deriving DecidableEq, Repr

/-- Go `(*rate.Limiter).SetLimit`, on the limiter's value. -/
def Limiter.SetLimit (lim : Limiter) (newLimit : Limit) : Limiter :=
  { lim with limit := newLimit }

/-! ## net/http -/

/-- Go `validHeaderFieldByte` of net/textproto: the bytes of an RFC 7230
token, which are the letters, the digits and fifteen punctuation marks. -/
def validHeaderFieldByte (c : Char) : Bool :=
  c.isAlphanum ||
    [33, 35, 36, 37, 38, 39, 42, 43, 45, 46, 94, 95, 96, 124, 126].contains c.toNat

/-- The loop of Go `canonicalMIMEHeaderKey`: upper case for the first letter and
for a letter after a dash, lower case for every other letter. -/
def canonicalLoop : Bool → List Char → List Char
  | _, [] => []
  | upper, c :: cs =>
    let c1 :=
      if upper ∧ 97 ≤ c.toNat ∧ c.toNat ≤ 122 then Char.ofNat (c.toNat - 32)
      else if ¬ upper ∧ 65 ≤ c.toNat ∧ c.toNat ≤ 90 then Char.ofNat (c.toNat + 32)
      else c
    c1 :: canonicalLoop (c1 = '-') cs

/-- Go `textproto.CanonicalMIMEHeaderKey`: a key with a byte that is not a
token byte is returned as it is. -/
def CanonicalMIMEHeaderKey (s : String) : String :=
  if s.toList.all validHeaderFieldByte then String.mk (canonicalLoop true s.toList) else s

/-- Go `http.Header`, a `map[string][]string`, as an association list from
the stored key to its values. A key that is not in the list is absent. -/
structure Header where
  entries : List (String × List String)
  deriving DecidableEq, Repr

/-- The Go map index `h[key]`: the values stored under `key`, the nil slice
when there are none. -/
def Header.index (h : Header) (key : String) : List String :=
  (h.entries.lookup key).getD []

/-- Go `http.Header.Get`: the first value stored under the canonical form of
`key`, the empty string when there is none. -/
def Header.Get (h : Header) (key : String) : String :=
  match h.index (CanonicalMIMEHeaderKey key) with
  | [] => ""
  | v :: _ => v

/-- Go `error` values met in this package. `errorf format err` is
`fmt.Errorf(format, err)` for a format with one `%w` verb. -/
inductive Error where
  | Canceled
  | DeadlineExceeded
  | other (msg : String)
  | num (e : NumError)
  | errorf (format : String) (err : Error)
  deriving DecidableEq, Repr

/-- Go `context.Context`, as far as a limiter reads it. -/
structure Context where
  Err : Option Error
  Deadline : Option Nat
  deriving DecidableEq, Repr

/-- Go `http.Request`. -/
structure Request where
  Method : String
  URL : String
  ctx : Context
  deriving DecidableEq, Repr

/-- Go `(*http.Request).Context`. -/
def Request.Context (req : Request) : Context := req.ctx

/-- Go `http.Response`. -/
structure Response where
  StatusCode : Int
  Header : Header
  Body : String
  deriving DecidableEq, Repr

/-! ## The world: limiters and the trace of calls -/

/-- One entry of the trace: a call made by the package's code. -/
inductive Event where
  | wait (lim : Nat) (ctx : Context)
  | roundTrip (req : Request)
  | onResp (res : Option Response) (err : Option Error)
  | headerGet (key : String)
  | div (a b : Int)
  | setLimit (lim : Nat) (newLimit : Limit)
  deriving DecidableEq, Repr

/-- The mutable state: the limiter stored at each address and the calls made so
far, oldest first. -/
structure World where
  limiters : Nat → Limiter
  trace : List Event

def World.log (w : World) (e : Event) : World :=
  { w with trace := w.trace ++ [e] }

/-- The call `lim.SetLimit(newLimit)` on the limiter at address `lim`. -/
def World.SetLimit (w : World) (lim : Nat) (newLimit : Limit) : World :=
  { limiters := Function.update w.limiters lim ((w.limiters lim).SetLimit newLimit)
    trace := w.trace ++ [Event.setLimit lim newLimit] }

/-- What a call of a hook or of `RoundTrip` ends in: the returned pair, or a
run-time panic (a nil pointer dereference). -/
inductive Result where
  | ret (res : Option Response) (err : Option Error)
  | panicked (msg : String)
  deriving DecidableEq, Repr

def nilDeref : String := "invalid memory address or nil pointer dereference"

/-! ## hyperate.go -/

/-- Go `http.RoundTripper`: the inner transport, any function of the request
and the world that returns a response and an error. -/
abbrev RoundTripper := Request → World → (Option Response × Option Error) × World

/-- Go `OnRespFunc`. -/
abbrev OnRespFunc := Option Response → Option Error → World → Result × World

/-- The method `(*rate.Limiter).Wait` of the limiter at an address: any
function of the context and the world that returns an error or nil. -/
abbrev WaitFunc := Nat → Context → World → Option Error × World

/-- Go `RateLimitRoundTripper`. `trans` is taken to be a non-nil interface
value; `lim` and `onResp` may be nil. -/
structure RateLimitRoundTripper where
  trans : RoundTripper
  lim : Option Nat
  onResp : Option OnRespFunc

abbrev RateLimitRoundTripperOption := RateLimitRoundTripper → RateLimitRoundTripper

/-- Go `New`: the struct with the transport and the limiter given, then every
option applied to it, in order. -/
def New (roudtripper : RoundTripper) (limiter : Option Nat)
    (opts : List RateLimitRoundTripperOption) : RateLimitRoundTripper :=
  opts.foldl (fun rt option => option rt) { trans := roudtripper, lim := limiter, onResp := none }

/-- Go `WithOnRespFunc`. -/
def WithOnRespFunc (fn : Option OnRespFunc) : RateLimitRoundTripperOption :=
  fun rt => { rt with onResp := fn }

/-- Go `(*RateLimitRoundTripper).RoundTrip`. -/
def RateLimitRoundTripper.RoundTrip (Wait : WaitFunc) (rt : RateLimitRoundTripper)
    (req : Request) (w : World) : Result × World :=
  let ctx := req.Context
  match rt.lim with
  | none => (Result.panicked nilDeref, w)
  | some lim =>
    match Wait lim ctx (w.log (Event.wait lim ctx)) with
    | (some err, w1) => (Result.ret none (some err), w1)
    | (none, w1) =>
      match rt.trans req (w1.log (Event.roundTrip req)) with
      | ((res, err), w2) =>
        match rt.onResp with
        | some onResp => onResp res err (w2.log (Event.onResp res err))
        | none => (Result.ret res err, w2)

/-- The hook that `WithRateLimitHeaderCheck` installs, for a transport whose
`lim` field is `lim`. In Go it is a closure over `rt` that reads `rt.lim` when
it is called; `lim` is assigned once, in `New`, before any option runs, and
neither option assigns it, so the value read is the one passed here. -/
def rateLimitHeaderCheck (lim : Option Nat) : OnRespFunc :=
  fun res respErr w =>
    match respErr, lim with
    | some e, _ => (Result.ret res (some e), w)
    | none, none => (Result.ret res none, w)
    | none, some l =>
      match res with
      | none => (Result.panicked nilDeref, w)
      | some r =>
        let remainingHeader := r.Header.Get "RateLimit-Remaining"
        let w1 := w.log (Event.headerGet "RateLimit-Remaining")
        let resetHeader := r.Header.Get "RateLimit-Reset"
        let w2 := w1.log (Event.headerGet "RateLimit-Reset")
        if remainingHeader ≠ "" ∧ resetHeader ≠ "" then
          match Atoi remainingHeader with
          | (_, some err) =>
            (Result.ret none (some (Error.errorf
              "hyperate: failed to parse rate limit remaining header: %w" (Error.num err))), w2)
          | (remaining, none) =>
            match Atoi resetHeader with
            | (_, some err) =>
              (Result.ret none (some (Error.errorf
                "hyperate: failed to parse rate limit reset header: %w" (Error.num err))), w2)
            | (reset, none) =>
              if reset > 0 then
                let w3 := w2.log (Event.div remaining reset)
                (Result.ret (some r) none, w3.SetLimit l (Limit.ofInt (Int.tdiv remaining reset)))
              else
                (Result.ret (some r) none, w2)
        else
          (Result.ret (some r) none, w2)

/-- Go `WithRateLimitHeaderCheck`. -/
def WithRateLimitHeaderCheck : RateLimitRoundTripperOption :=
  fun rt => { rt with onResp := some (rateLimitHeaderCheck rt.lim) }

/-- The two errors the hook builds itself: a `strconv` error wrapped with one of
its two messages. -/
def Error.IsHeaderParseError : Error → Bool
  | Error.errorf format (Error.num _) =>
    format = "hyperate: failed to parse rate limit remaining header: %w" ||
    format = "hyperate: failed to parse rate limit reset header: %w"
  | _ => false

/-- The Go test `_, ok := h[key]` on the map of headers. -/
def Header.Has (h : Header) (key : String) : Bool :=
  (h.entries.lookup key).isSome

/-- The events logged between the world `w0` and the later world `w`. -/
def World.since (w0 w : World) : List Event :=
  w.trace.drop w0.trace.length

/-- The number written by a list of decimal digits, read after the value `n`. -/
def digitsFold (n : Nat) (ds : List Char) : Nat :=
  ds.foldl (fun n c => n * 10 + (c.toNat - 48)) n

/-- A non-empty list of decimal digits. -/
def IsDigits (ds : List Char) : Prop :=
  ds ≠ [] ∧ ∀ c ∈ ds, 48 ≤ c.toNat ∧ c.toNat ≤ 57

instance (ds : List Char) : Decidable (IsDigits ds) := by
  unfold IsDigits; infer_instance

/-- A header value that is a non-negative integer, in the spec's words: a
non-empty string of decimal digits. -/
def IsNonNegativeInteger (s : String) : Prop := IsDigits s.toList

instance (s : String) : Decidable (IsNonNegativeInteger s) := by
  unfold IsNonNegativeInteger; infer_instance

/-- What `strconv.Atoi` accepts, as its documentation has it: an optional sign,
then decimal digits, for a value that fits an `int`. -/
def atoiSpec (s : String) : Option Int :=
  match s.toList with
  | [] => none
  | c :: cs =>
    if c = '-' then
      if IsDigits cs ∧ digitsFold 0 cs ≤ 2 ^ 63 then some (-(digitsFold 0 cs : Int)) else none
    else if c = '+' then
      if IsDigits cs ∧ digitsFold 0 cs < 2 ^ 63 then some (digitsFold 0 cs : Int) else none
    else
      if IsDigits (c :: cs) ∧ digitsFold 0 (c :: cs) < 2 ^ 63 then
        some (digitsFold 0 (c :: cs) : Int)
      else none

/-! ## Concrete values used to exercise the definitions -/

/-- A response carrying the two rate-limit headers with the given values. -/
def respWith (remaining reset : String) : Response :=
  { StatusCode := 200
    Header := ⟨[("Content-Type", ["text/plain"]), ("Ratelimit-Remaining", [remaining]),
      ("Ratelimit-Reset", [reset])]⟩
    Body := "ok" }

/-- A response carrying `RateLimit-Remaining` only. -/
def respRemainingOnly (remaining : String) : Response :=
  { StatusCode := 200
    Header := ⟨[("Ratelimit-Remaining", [remaining])]⟩
    Body := "ok" }

/-- A world whose limiters all allow 10 events per second with bursts of 5, as
in `examples/simple/main.go`, and in which nothing has been called yet. -/
def world0 : World :=
  { limiters := fun _ => { limit := 10, burst := 5 }, trace := [] }

def ctxLive : Context := { Err := none, Deadline := none }

def ctxCanceled : Context := { Err := some Error.Canceled, Deadline := none }

def reqLive : Request := { Method := "GET", URL := "https://example.com?n=1", ctx := ctxLive }

def reqCanceled : Request :=
  { Method := "GET", URL := "https://example.com?n=1", ctx := ctxCanceled }

/-- A `Wait` that fails with the context's error when the context has ended and
admits the request otherwise. -/
def waitCtx : WaitFunc := fun _ ctx w => (ctx.Err, w)

/-- A transport that answers every request with the same response. -/
def transConst (res : Response) : RoundTripper := fun _ w => ((some res, none), w)

/-- A custom hook that replaces every result by an error. -/
def hookFail : OnRespFunc := fun _ _ w => (Result.ret none (some (Error.other "rejected")), w)

/-! ## Basic facts -/

theorem Atoi_empty : Atoi "" = (0, some (syntaxError "Atoi" "")) := by decide

theorem ne_empty_of_Atoi {s : String} {n : Int} (h : Atoi s = (n, none)) : s ≠ "" := by
  intro hs
  rw [hs, Atoi_empty] at h
  simp at h

theorem Header.Get_of_not_Has {h : Header} {key : String}
    (hk : h.Has (CanonicalMIMEHeaderKey key) = false) : h.Get key = "" := by
  unfold Header.Has at hk
  unfold Header.Get Header.index
  cases hl : h.entries.lookup (CanonicalMIMEHeaderKey key) with
  | none => rfl
  | some v => rw [hl] at hk; simp at hk

theorem float64Shift_lt {m : Nat} (h : m < 2 ^ 53) : float64Shift m = 0 := by
  have hr : List.range 12 = [0, 1, 2, 3, 4, 5, 6, 7, 8, 9, 10, 11] := by decide
  have h1 : m < 9007199254740992 := by simpa using h
  simp [float64Shift, hr, List.find?, h1]

theorem roundFloat64_of_le {m : Nat} (h : m ≤ 2 ^ 53) : roundFloat64 m = m := by
  rcases Nat.lt_or_eq_of_le h with h1 | h1
  · simp [roundFloat64, float64Shift_lt h1, Nat.mod_one]
  · subst h1; decide

theorem Limit.ofInt_of_natAbs_le {n : Int} (h : n.natAbs ≤ 2 ^ 53) :
    Limit.ofInt n = (n : ℚ) := by
  unfold Limit.ofInt
  rw [roundFloat64_of_le h]
  split
  · next hn =>
    have : ((n.natAbs : Nat) : Int) = -n := by omega
    rw [← Int.cast_natCast, this, Int.cast_neg, neg_neg]
  · next hn =>
    have : ((n.natAbs : Nat) : Int) = n := by omega
    rw [← Int.cast_natCast, this]

theorem Limit.ofInt_nonneg {n : Int} (h : 0 ≤ n) : 0 ≤ Limit.ofInt n := by
  unfold Limit.ofInt
  rw [if_neg (by omega)]
  exact Nat.cast_nonneg _

theorem tdiv_nonneg_of_gt_neg {a b : Int} (hb : 0 < b) (ha : -b < a) : 0 ≤ Int.tdiv a b := by
  rcases le_or_lt 0 a with h | h
  · exact Int.tdiv_nonneg h (le_of_lt hb)
  · have h1 : Int.tdiv (-a) b = 0 := Int.tdiv_eq_zero_of_lt (by omega) (by omega)
    have h2 : Int.tdiv a b = -Int.tdiv (-a) b := by
      rw [Int.neg_tdiv, neg_neg]
    rw [h2, h1]; simp

/-! ## What Atoi accepts -/

theorem le_digitsFold (ds : List Char) (n : Nat) : n ≤ digitsFold n ds := by
  induction ds generalizing n with
  | nil => exact Nat.le_refl n
  | cons c cs ih =>
    have h := ih (n * 10 + (c.toNat - 48))
    simp only [digitsFold, List.foldl_cons] at h ⊢
    omega

theorem digitsFold_lt (ds : List Char) (n : Nat) (hd : ∀ c ∈ ds, 48 ≤ c.toNat ∧ c.toNat ≤ 57) :
    digitsFold n ds < (n + 1) * 10 ^ ds.length := by
  induction ds generalizing n with
  | nil => simp [digitsFold]
  | cons c cs ih =>
    have hc := hd c (List.mem_cons_self c cs)
    have h := ih (n * 10 + (c.toNat - 48)) (fun x hx => hd x (List.mem_cons_of_mem c hx))
    simp only [digitsFold, List.foldl_cons, List.length_cons] at h ⊢
    calc _ < (n * 10 + (c.toNat - 48) + 1) * 10 ^ cs.length := h
      _ ≤ ((n + 1) * 10) * 10 ^ cs.length := Nat.mul_le_mul_right _ (by omega)
      _ = (n + 1) * 10 ^ (cs.length + 1) := by rw [Nat.pow_succ]; ring

theorem atoiFastLoop_eq (s0 : String) (ds : List Char) (n : Nat) :
    atoiFastLoop s0 ds (n : Int) =
      if ∀ c ∈ ds, 48 ≤ c.toNat ∧ c.toNat ≤ 57 then (((digitsFold n ds : Nat) : Int), none)
      else (0, some (syntaxError "Atoi" s0)) := by
  induction ds generalizing n with
  | nil => simp [atoiFastLoop, digitsFold]
  | cons c cs ih =>
    by_cases hc : 48 ≤ c.toNat ∧ c.toNat ≤ 57
    · have h1 : ¬ (c.toNat < 48 ∨ c.toNat - 48 > 9) := by omega
      have h2 : (n : Int) * 10 + ((c.toNat - 48 : Nat) : Int)
          = ((n * 10 + (c.toNat - 48) : Nat) : Int) := by push_cast; rfl
      simp only [atoiFastLoop, if_neg h1]
      rw [h2, ih]
      simp [hc, digitsFold]
    · have h1 : c.toNat < 48 ∨ c.toNat - 48 > 9 := by omega
      simp only [atoiFastLoop, if_pos h1]
      rw [if_neg]
      intro h
      exact hc (h c (List.mem_cons_self c cs))

theorem parseUintLoop_ok (s0 : String) (ds : List Char) (n : Nat) (hn : n ≤ 2 ^ 64 - 1) :
    ((parseUintLoop s0 ds n).2 = none ↔
      (∀ c ∈ ds, 48 ≤ c.toNat ∧ c.toNat ≤ 57) ∧ digitsFold n ds ≤ 2 ^ 64 - 1) ∧
    ((parseUintLoop s0 ds n).2 = none → (parseUintLoop s0 ds n).1 = digitsFold n ds) ∧
    (∀ e, (parseUintLoop s0 ds n).2 = some e → e.Err = NumErrKind.ErrRange →
      (parseUintLoop s0 ds n).1 = 2 ^ 64 - 1) ∧
    (∀ e, (parseUintLoop s0 ds n).2 = some e → e.Err = NumErrKind.ErrSyntax →
      ¬ ∀ c ∈ ds, 48 ≤ c.toNat ∧ c.toNat ≤ 57) := by
  induction ds generalizing n with
  | nil => simpa [parseUintLoop, digitsFold] using hn
  | cons c cs ih =>
    by_cases hc : 48 ≤ c.toNat ∧ c.toNat ≤ 57
    · by_cases h1 : n ≥ maxUint64 / 10 + 1
      · have hge := le_digitsFold cs (n * 10 + (c.toNat - 48))
        have hm : maxUint64 = 18446744073709551615 := by decide
        rw [hm] at h1
        simp only [parseUintLoop, if_pos hc, hm, if_pos h1, digitsFold, List.foldl_cons]
        simp only [digitsFold] at hge
        simp [rangeError, intSize]
        omega
      · by_cases h2 : n * 10 + (c.toNat - 48) > 2 ^ intSize - 1
        · have hge := le_digitsFold cs (n * 10 + (c.toNat - 48))
          simp only [parseUintLoop, if_pos hc, if_neg h1, if_pos h2, digitsFold, List.foldl_cons]
          simp only [digitsFold] at hge
          simp only [intSize] at h2
          simp [rangeError, intSize]
          omega
        · have h := ih (n * 10 + (c.toNat - 48)) (by simp only [intSize] at h2; omega)
          simp only [parseUintLoop, if_pos hc, if_neg h1, if_neg h2, digitsFold, List.foldl_cons]
          simp only [digitsFold] at h
          simp only [List.mem_cons, forall_eq_or_imp, hc, true_and]
          exact h
    · simp [parseUintLoop, hc, syntaxError]

theorem ParseUint_cases (s : List Char) :
    (IsDigits s ∧ digitsFold 0 s ≤ 2 ^ 64 - 1 ∧ ParseUint s = (digitsFold 0 s, none)) ∨
    (¬ IsDigits s ∧ ∃ un f m, ParseUint s = (un, some ⟨f, m, NumErrKind.ErrSyntax⟩)) ∨
    ((¬ IsDigits s ∨ digitsFold 0 s > 2 ^ 64 - 1) ∧
      ∃ f m, ParseUint s = (2 ^ 64 - 1, some ⟨f, m, NumErrKind.ErrRange⟩)) := by
  cases s with
  | nil =>
    right; left
    exact ⟨fun h => h.1 rfl, 0, "ParseUint", "", rfl⟩
  | cons x xs =>
    obtain ⟨h1, h2, h3, h4⟩ := parseUintLoop_ok (String.mk (x :: xs)) (x :: xs) 0 (by omega)
    have hP : ParseUint (x :: xs) = parseUintLoop (String.mk (x :: xs)) (x :: xs) 0 := rfl
    rw [hP]
    rcases hr : parseUintLoop (String.mk (x :: xs)) (x :: xs) 0 with ⟨un, e⟩
    rw [hr] at h1 h2 h3 h4
    cases e with
    | none =>
      left
      have h := h1.mp rfl
      have hv := h2 rfl
      simp only at hv
      exact ⟨⟨List.cons_ne_nil x xs, h.1⟩, h.2, by rw [hv]⟩
    | some e =>
      rcases e with ⟨f, m, k⟩
      cases k with
      | ErrSyntax =>
        right; left
        exact ⟨fun h => h4 _ rfl rfl h.2, un, f, m, rfl⟩
      | ErrRange =>
        right; right
        have hv := h3 _ rfl rfl
        simp only at hv
        refine ⟨?_, f, m, by rw [hv]⟩
        by_cases hd : IsDigits (x :: xs)
        · right
          by_contra hle
          have := h1.mpr ⟨hd.2, by omega⟩
          simp at this
        · left; exact hd

theorem ParseInt_spec (s : String) :
    ((ParseInt s).2 = none → atoiSpec s = some (ParseInt s).1) ∧
    ((ParseInt s).2 ≠ none → atoiSpec s = none) := by
  unfold ParseInt atoiSpec
  cases h : s.toList with
  | nil => simp
  | cons c cs =>
    simp only
    by_cases hm : c = '-'
    · subst hm
      rcases ParseUint_cases cs with ⟨hd, hle, hP⟩ | ⟨hd, un, f, m, hP⟩ | ⟨hd, f, m, hP⟩
      · by_cases hc : digitsFold 0 cs ≤ 9223372036854775808
        · have h1 : ¬ 9223372036854775808 < digitsFold 0 cs := by omega
          simp [hP, hd, hc, h1, intSize]
        · have h1 : 9223372036854775808 < digitsFold 0 cs := by omega
          simp [hP, hd, hc, h1, intSize]
      · simp [hP, hd]
      · have h2 : IsDigits cs → 9223372036854775808 < digitsFold 0 cs := by
          intro h3
          rcases hd with hd | hd
          · exact absurd h3 hd
          · omega
        simpa [hP, intSize] using h2
    · by_cases hp : c = '+'
      · subst hp
        rcases ParseUint_cases cs with ⟨hd, hle, hP⟩ | ⟨hd, un, f, m, hP⟩ | ⟨hd, f, m, hP⟩
        · by_cases hc : digitsFold 0 cs < 9223372036854775808
          · have h1 : ¬ 9223372036854775808 ≤ digitsFold 0 cs := by omega
            simp [hP, hd, hc, h1, intSize]
          · have h1 : 9223372036854775808 ≤ digitsFold 0 cs := by omega
            simp [hP, hd, hc, h1, intSize]
        · simp [hP, hd]
        · have h2 : IsDigits cs → 9223372036854775808 ≤ digitsFold 0 cs := by
            intro h3
            rcases hd with hd | hd
            · exact absurd h3 hd
            · omega
          simpa [hP, intSize] using h2
      · rcases ParseUint_cases (c :: cs) with ⟨hd, hle, hP⟩ | ⟨hd, un, f, m, hP⟩ | ⟨hd, f, m, hP⟩
        · by_cases hc : digitsFold 0 (c :: cs) < 9223372036854775808
          · have h1 : ¬ 9223372036854775808 ≤ digitsFold 0 (c :: cs) := by omega
            simp [hP, hd, hc, h1, intSize, hm, hp]
          · have h1 : 9223372036854775808 ≤ digitsFold 0 (c :: cs) := by omega
            simp [hP, hd, hc, h1, intSize, hm, hp]
        · simp [hP, hd, hm, hp]
        · have h2 : IsDigits (c :: cs) → 9223372036854775808 ≤ digitsFold 0 (c :: cs) := by
            intro h3
            rcases hd with hd | hd
            · exact absurd h3 hd
            · omega
          simpa [hP, intSize, hm, hp] using h2

theorem length_le_utf8Len (cs : List Char) : cs.length ≤ String.utf8Len cs := by
  induction cs with
  | nil => simp
  | cons c cs ih =>
    have := Char.utf8Size_pos c
    simp only [List.length_cons, String.utf8Len_cons]
    omega

theorem digitsFold_lt_of_short (ds : List Char) (hd : ∀ c ∈ ds, 48 ≤ c.toNat ∧ c.toNat ≤ 57)
    (hlen : ds.length ≤ 18) : digitsFold 0 ds < 9223372036854775808 := by
  have h1 := digitsFold_lt ds 0 hd
  have h2 : 10 ^ ds.length ≤ 10 ^ 18 := Nat.pow_le_pow_right (by decide) hlen
  have h3 : (10 : Nat) ^ 18 < 9223372036854775808 := by decide
  omega

theorem atoiFastLoop_digits (s0 : String) (ds : List Char)
    (hd : ∀ c ∈ ds, 48 ≤ c.toNat ∧ c.toNat ≤ 57) :
    atoiFastLoop s0 ds 0 = (((digitsFold 0 ds : Nat) : Int), none) := by
  have h := atoiFastLoop_eq s0 ds 0
  rw [if_pos hd] at h
  exact h

theorem atoiFastLoop_not_digits (s0 : String) (ds : List Char)
    (hd : ¬ ∀ c ∈ ds, 48 ≤ c.toNat ∧ c.toNat ≤ 57) :
    atoiFastLoop s0 ds 0 = (0, some (syntaxError "Atoi" s0)) := by
  have h := atoiFastLoop_eq s0 ds 0
  rw [if_neg hd] at h
  exact h

/-- The model of `Atoi` succeeds exactly on the strings `atoiSpec` accepts, with
the same value: an optional sign, at least one decimal digit, and a value from
`-2^63` to `2^63 - 1`. -/
theorem Atoi_spec (s : String) :
    ((Atoi s).2 = none → atoiSpec s = some (Atoi s).1) ∧
    ((Atoi s).2 ≠ none → atoiSpec s = none) := by
  by_cases hfast : 0 < s.utf8ByteSize ∧ s.utf8ByteSize < 19
  · have hlen : s.toList.length ≤ 18 := by
      have h1 := length_le_utf8Len s.toList
      have h2 : String.utf8Len s.toList = s.utf8ByteSize := rfl
      omega
    unfold Atoi atoiSpec
    simp only [hfast, and_self, if_true]
    cases h : s.toList with
    | nil => simp
    | cons c cs =>
      rw [h] at hlen
      simp only [List.length_cons] at hlen
      simp only
      by_cases hm : c = '-'
      · subst hm
        cases cs with
        | nil => simp [IsDigits]
        | cons x xs =>
          by_cases hd : ∀ c ∈ x :: xs, 48 ≤ c.toNat ∧ c.toNat ≤ 57
          · have hv := digitsFold_lt_of_short (x :: xs) hd (by omega)
            have hv2 : digitsFold 0 (x :: xs) ≤ 9223372036854775808 := by omega
            have hD : IsDigits (x :: xs) := ⟨List.cons_ne_nil x xs, hd⟩
            simp [atoiFastLoop_digits s (x :: xs) hd, hD, hv2]
          · have hD : ¬ IsDigits (x :: xs) := fun h => hd h.2
            simp [atoiFastLoop_not_digits s (x :: xs) hd, hD]
      · by_cases hp : c = '+'
        · subst hp
          cases cs with
          | nil => simp [IsDigits]
          | cons x xs =>
            by_cases hd : ∀ c ∈ x :: xs, 48 ≤ c.toNat ∧ c.toNat ≤ 57
            · have hv := digitsFold_lt_of_short (x :: xs) hd (by omega)
              have hD : IsDigits (x :: xs) := ⟨List.cons_ne_nil x xs, hd⟩
              simp [atoiFastLoop_digits s (x :: xs) hd, hD, hv]
            · have hD : ¬ IsDigits (x :: xs) := fun h => hd h.2
              simp [atoiFastLoop_not_digits s (x :: xs) hd, hD]
        · by_cases hd : ∀ x ∈ c :: cs, 48 ≤ x.toNat ∧ x.toNat ≤ 57
          · have hv := digitsFold_lt_of_short (c :: cs) hd (by simp only [List.length_cons]; omega)
            have hD : IsDigits (c :: cs) := ⟨List.cons_ne_nil c cs, hd⟩
            simp [atoiFastLoop_digits s (c :: cs) hd, hD, hv, hm, hp]
          · have hD : ¬ IsDigits (c :: cs) := fun h => hd h.2
            simp [atoiFastLoop_not_digits s (c :: cs) hd, hD, hm, hp]
  · have h := ParseInt_spec s
    unfold Atoi
    simp only [hfast, if_false]
    rcases hP : ParseInt s with ⟨i64, e⟩
    rw [hP] at h
    cases e with
    | none => simpa using h.1
    | some nerr => simpa using h.2

/-- `Atoi` returns `n` with a nil error exactly when `atoiSpec` accepts the
string with value `n`. -/
theorem Atoi_ok_iff (s : String) (n : Int) : Atoi s = (n, none) ↔ atoiSpec s = some n := by
  have h := Atoi_spec s
  constructor
  · intro ha
    have h1 := h.1 (by rw [ha])
    rw [ha] at h1
    exact h1
  · intro hs
    rcases ha : Atoi s with ⟨v, e⟩
    rw [ha] at h
    cases e with
    | none =>
      have h1 := h.1 rfl
      rw [hs] at h1
      simp only [Option.some.injEq] at h1
      rw [h1]
    | some nerr =>
      have h1 := h.2 (by simp)
      rw [hs] at h1
      simp at h1

/-! ## RoundTrip -/

/-- C1: when `Wait` on the request's context returns an error, `RoundTrip`
returns no response and exactly that error, in the world `Wait` left: nothing is
called after `Wait`, and the result is the same whatever the inner transport and
the hook are, so neither is invoked. -/
theorem RoundTrip_wait_error (Wait : WaitFunc) (rt : RateLimitRoundTripper) (req : Request)
    (w w1 : World) (lim : Nat) (err : Error)
    (hlim : rt.lim = some lim)
    (hwait : Wait lim req.Context (w.log (Event.wait lim req.Context)) = (some err, w1)) :
    rt.RoundTrip Wait req w = (Result.ret none (some err), w1) ∧
    ∀ (trans : RoundTripper) (onResp : Option OnRespFunc),
      RateLimitRoundTripper.RoundTrip Wait { rt with trans := trans, onResp := onResp } req w
        = (Result.ret none (some err), w1) := by
  constructor
  · simp only [RateLimitRoundTripper.RoundTrip, hlim, hwait]
  · intro trans onResp
    simp only [RateLimitRoundTripper.RoundTrip, hlim, hwait]

theorem RoundTrip_wait_error_witness :
    (New (transConst (respWith "100" "50")) (some 0) [WithRateLimitHeaderCheck]).lim = some 0 ∧
    waitCtx 0 reqCanceled.Context (world0.log (Event.wait 0 reqCanceled.Context))
      = (some Error.Canceled, world0.log (Event.wait 0 ctxCanceled)) ∧
    (New (transConst (respWith "100" "50")) (some 0) [WithRateLimitHeaderCheck]).RoundTrip
        waitCtx reqCanceled world0
      = (Result.ret none (some Error.Canceled), world0.log (Event.wait 0 ctxCanceled)) :=
  ⟨rfl, rfl,
    (RoundTrip_wait_error waitCtx
      (New (transConst (respWith "100" "50")) (some 0) [WithRateLimitHeaderCheck]) reqCanceled
      world0 (world0.log (Event.wait 0 ctxCanceled)) 0 Error.Canceled rfl rfl).1⟩

/-- C2: when `Wait` admits the request and the inner transport returns the pair
`(res, err)`, `RoundTrip` returns that pair, in the world the transport left,
when no hook is configured, and the result of the hook applied to that pair
when one is. -/
theorem RoundTrip_admitted (Wait : WaitFunc) (rt : RateLimitRoundTripper) (req : Request)
    (w w1 w2 : World) (lim : Nat) (res : Option Response) (err : Option Error)
    (hlim : rt.lim = some lim)
    (hwait : Wait lim req.Context (w.log (Event.wait lim req.Context)) = (none, w1))
    (htrans : rt.trans req (w1.log (Event.roundTrip req)) = ((res, err), w2)) :
    (rt.onResp = none → rt.RoundTrip Wait req w = (Result.ret res err, w2)) ∧
    (∀ onResp : OnRespFunc, rt.onResp = some onResp →
      rt.RoundTrip Wait req w = onResp res err (w2.log (Event.onResp res err))) := by
  constructor
  · intro h
    simp only [RateLimitRoundTripper.RoundTrip, hlim, hwait, htrans, h]
  · intro onResp h
    simp only [RateLimitRoundTripper.RoundTrip, hlim, hwait, htrans, h]

theorem RoundTrip_admitted_witness :
    (New (transConst (respWith "100" "50")) (some 0) []).RoundTrip waitCtx reqLive world0
      = (Result.ret (some (respWith "100" "50")) none,
          (world0.log (Event.wait 0 ctxLive)).log (Event.roundTrip reqLive)) ∧
    (New (transConst (respWith "100" "50")) (some 0) [WithOnRespFunc (some hookFail)]).RoundTrip
        waitCtx reqLive world0
      = hookFail (some (respWith "100" "50")) none
          (((world0.log (Event.wait 0 ctxLive)).log (Event.roundTrip reqLive)).log
            (Event.onResp (some (respWith "100" "50")) none)) :=
  ⟨(RoundTrip_admitted waitCtx (New (transConst (respWith "100" "50")) (some 0) []) reqLive
      world0 (world0.log (Event.wait 0 ctxLive))
      ((world0.log (Event.wait 0 ctxLive)).log (Event.roundTrip reqLive)) 0
      (some (respWith "100" "50")) none rfl rfl rfl).1 rfl,
   (RoundTrip_admitted waitCtx
      (New (transConst (respWith "100" "50")) (some 0) [WithOnRespFunc (some hookFail)]) reqLive
      world0 (world0.log (Event.wait 0 ctxLive))
      ((world0.log (Event.wait 0 ctxLive)).log (Event.roundTrip reqLive)) 0
      (some (respWith "100" "50")) none rfl rfl rfl).2 hookFail rfl⟩

/-! ## New and the options -/

/-- C10: `New` applies its options in the order given, each to the result of the
ones before, and the hook installed last is the one in force: a custom hook `f`
after the header check leaves `f`, the header check after `f` leaves the header
check, no option leaves no hook; the transport and the limiter are always the
ones given. -/
theorem New_options (t : RoundTripper) (g : Option Nat) (f : Option OnRespFunc) :
    New t g [WithRateLimitHeaderCheck, WithOnRespFunc f]
      = { trans := t, lim := g, onResp := f } ∧
    New t g [WithOnRespFunc f, WithRateLimitHeaderCheck]
      = { trans := t, lim := g, onResp := some (rateLimitHeaderCheck g) } ∧
    New t g [] = { trans := t, lim := g, onResp := none } ∧
    (∀ (opts : List RateLimitRoundTripperOption) (o : RateLimitRoundTripperOption),
      New t g (opts ++ [o]) = o (New t g opts)) := by
  refine ⟨rfl, rfl, rfl, ?_⟩
  intro opts o
  simp [New, List.foldl_append]

/-! ## The header check -/

/-- C5: on a pair whose error is not nil, with or without a response and
whatever `lim` is, the hook returns that pair and leaves the world as it was:
no header is read (the trace is unchanged) and no limiter changes. -/
theorem headerCheck_error_passthrough (lim : Option Nat) (res : Option Response) (e : Error)
    (w : World) :
    rateLimitHeaderCheck lim res (some e) w = (Result.ret res (some e), w) := by
  simp only [rateLimitHeaderCheck]

/-- C6: on a response with a nil error and a limiter bound, when at least one of
the two rate-limit headers is absent from the header map, the hook returns the
same response with a nil error and changes no limiter; all it does is read the
two headers. -/
theorem headerCheck_absent (l : Nat) (r : Response) (w : World)
    (habs : r.Header.Has (CanonicalMIMEHeaderKey "RateLimit-Remaining") = false ∨
      r.Header.Has (CanonicalMIMEHeaderKey "RateLimit-Reset") = false) :
    (rateLimitHeaderCheck (some l) (some r) none w).1 = Result.ret (some r) none ∧
    (rateLimitHeaderCheck (some l) (some r) none w).2.limiters = w.limiters ∧
    (rateLimitHeaderCheck (some l) (some r) none w).2.trace
      = w.trace ++ [Event.headerGet "RateLimit-Remaining", Event.headerGet "RateLimit-Reset"] := by
  have h : ¬ (r.Header.Get "RateLimit-Remaining" ≠ "" ∧ r.Header.Get "RateLimit-Reset" ≠ "") := by
    rintro ⟨h1, h2⟩
    rcases habs with h | h
    · exact h1 (Header.Get_of_not_Has h)
    · exact h2 (Header.Get_of_not_Has h)
  simp only [rateLimitHeaderCheck, if_neg h, World.log, List.append_assoc, List.singleton_append,
    and_self]

theorem headerCheck_absent_witness :
    (respRemainingOnly "abc").Header.Has (CanonicalMIMEHeaderKey "RateLimit-Reset") = false ∧
    (rateLimitHeaderCheck (some 0) (some (respRemainingOnly "abc")) none world0).1
      = Result.ret (some (respRemainingOnly "abc")) none ∧
    (rateLimitHeaderCheck (some 0) (some (respRemainingOnly "abc")) none world0).2.limiters
      = world0.limiters :=
  ⟨by decide,
    (headerCheck_absent 0 (respRemainingOnly "abc") world0 (Or.inr (by decide))).1,
    (headerCheck_absent 0 (respRemainingOnly "abc") world0 (Or.inr (by decide))).2.1⟩

/-- C7: on a response with a nil error whose `RateLimit-Remaining` value parses
and whose `RateLimit-Reset` value parses to zero or less, the hook returns the
same response with a nil error, changes no limiter, and logs nothing but the two
header reads when a limiter is bound (nothing at all when none is): no division
and no `SetLimit`. -/
theorem headerCheck_reset_nonpositive (lim : Option Nat) (r : Response) (w : World)
    (remaining reset : Int)
    (hrem : Atoi (r.Header.Get "RateLimit-Remaining") = (remaining, none))
    (hreset : Atoi (r.Header.Get "RateLimit-Reset") = (reset, none))
    (hle : reset ≤ 0) :
    (rateLimitHeaderCheck lim (some r) none w).1 = Result.ret (some r) none ∧
    (rateLimitHeaderCheck lim (some r) none w).2.limiters = w.limiters ∧
    (rateLimitHeaderCheck lim (some r) none w).2.trace
      = w.trace ++ (if lim.isSome then
          [Event.headerGet "RateLimit-Remaining", Event.headerGet "RateLimit-Reset"] else []) ∧
    (∀ a b : Int, Event.div a b ∉ World.since w (rateLimitHeaderCheck lim (some r) none w).2) := by
  have h1 := ne_empty_of_Atoi hrem
  have h2 := ne_empty_of_Atoi hreset
  have h3 : ¬ reset > 0 := by omega
  cases lim with
  | none => simp [rateLimitHeaderCheck, World.since]
  | some l =>
    simp [rateLimitHeaderCheck, h1, h2, hrem, hreset, h3, World.log, World.since]

theorem headerCheck_reset_nonpositive_witness :
    Atoi ((respWith "100" "0").Header.Get "RateLimit-Reset") = (0, none) ∧
    (rateLimitHeaderCheck (some 0) (some (respWith "100" "0")) none world0).1
      = Result.ret (some (respWith "100" "0")) none ∧
    (rateLimitHeaderCheck (some 0) (some (respWith "100" "0")) none world0).2.limiters
      = world0.limiters :=
  ⟨by decide,
    (headerCheck_reset_nonpositive (some 0) (respWith "100" "0") world0 100 0
      (by decide) (by decide) (by decide)).1,
    (headerCheck_reset_nonpositive (some 0) (respWith "100" "0") world0 100 0
      (by decide) (by decide) (by decide)).2.1⟩

/-- C9: whenever the hook returns one of its header parse errors, no limiter has
changed, so the refill rate after the call is the rate before it. -/
theorem headerCheck_parse_error_keeps_rate (lim : Option Nat) (res res1 : Option Response)
    (respErr : Option Error) (w : World) (e : Error)
    (hret : (rateLimitHeaderCheck lim res respErr w).1 = Result.ret res1 (some e))
    (hparse : e.IsHeaderParseError = true) :
    (rateLimitHeaderCheck lim res respErr w).2.limiters = w.limiters := by
  have _ := hparse
  revert hret
  unfold rateLimitHeaderCheck
  simp only
  split
  · intro _; rfl
  · intro _; rfl
  · split
    · intro _; rfl
    · split
      · split
        · intro _; rfl
        · split
          · intro _; rfl
          · split
            · intro h; simp at h
            · intro _; rfl
      · intro _; rfl

theorem headerCheck_parse_error_keeps_rate_witness :
    (rateLimitHeaderCheck (some 0) (some (respWith "abc" "50")) none world0).1
      = Result.ret none (some (Error.errorf
          "hyperate: failed to parse rate limit remaining header: %w"
          (Error.num (syntaxError "Atoi" "abc")))) ∧
    (rateLimitHeaderCheck (some 0) (some (respWith "abc" "50")) none world0).2.limiters
      = world0.limiters :=
  ⟨by decide,
    headerCheck_parse_error_keeps_rate (some 0) (some (respWith "abc" "50")) none none world0
      (Error.errorf "hyperate: failed to parse rate limit remaining header: %w"
        (Error.num (syntaxError "Atoi" "abc"))) (by decide) (by decide)⟩

/-- C3, as stated, fails: `rate.Limit` is a `float64`, and the quotient
`9007199254740993 / 1 = 2^53 + 1` is not one; the rate set is `2^53`. -/
theorem headerCheck_rate_not_quotient :
    Atoi ((respWith "9007199254740993" "1").Header.Get "RateLimit-Remaining")
      = (9007199254740993, none) ∧
    Atoi ((respWith "9007199254740993" "1").Header.Get "RateLimit-Reset") = (1, none) ∧
    (rateLimitHeaderCheck (some 0) (some (respWith "9007199254740993" "1")) none world0).1
      = Result.ret (some (respWith "9007199254740993" "1")) none ∧
    ((rateLimitHeaderCheck (some 0) (some (respWith "9007199254740993" "1")) none
        world0).2.limiters 0).limit = 9007199254740992 ∧
    ((rateLimitHeaderCheck (some 0) (some (respWith "9007199254740993" "1")) none
        world0).2.limiters 0).limit ≠ ((Int.tdiv 9007199254740993 1 : Int) : ℚ) := by
  decide

/-- C3, amended: on a response with a nil error and a limiter bound, when both
header values parse and `reset > 0`, the hook returns the same response with a
nil error and sets the limiter's rate to `rate.Limit(remaining / reset)`, the
`float64` nearest to the quotient truncated toward zero. That is the quotient
itself when its magnitude is at most `2^53`: `100 / 50` gives 2, and every
`0 < remaining < reset` gives 0. -/
theorem headerCheck_sets_rate (l : Nat) (r : Response) (w : World) (remaining reset : Int)
    (hrem : Atoi (r.Header.Get "RateLimit-Remaining") = (remaining, none))
    (hreset : Atoi (r.Header.Get "RateLimit-Reset") = (reset, none))
    (hpos : 0 < reset) :
    (rateLimitHeaderCheck (some l) (some r) none w).1 = Result.ret (some r) none ∧
    ((rateLimitHeaderCheck (some l) (some r) none w).2.limiters l).limit
      = Limit.ofInt (Int.tdiv remaining reset) ∧
    ((Int.tdiv remaining reset).natAbs ≤ 2 ^ 53 →
      ((rateLimitHeaderCheck (some l) (some r) none w).2.limiters l).limit
        = ((Int.tdiv remaining reset : Int) : ℚ)) ∧
    (remaining = 100 → reset = 50 →
      ((rateLimitHeaderCheck (some l) (some r) none w).2.limiters l).limit = 2) ∧
    (0 < remaining → remaining < reset →
      ((rateLimitHeaderCheck (some l) (some r) none w).2.limiters l).limit = 0) := by
  have h1 := ne_empty_of_Atoi hrem
  have h2 := ne_empty_of_Atoi hreset
  have hlim : ((rateLimitHeaderCheck (some l) (some r) none w).2.limiters l).limit
      = Limit.ofInt (Int.tdiv remaining reset) := by
    simp [rateLimitHeaderCheck, h1, h2, hrem, hreset, hpos, World.log, World.SetLimit,
      Limiter.SetLimit]
  refine ⟨?_, hlim, ?_, ?_, ?_⟩
  · simp [rateLimitHeaderCheck, h1, h2, hrem, hreset, hpos]
  · intro hb
    rw [hlim, Limit.ofInt_of_natAbs_le hb]
  · intro ha hb
    subst ha hb
    rw [hlim]
    decide
  · intro ha hb
    rw [hlim, Int.tdiv_eq_zero_of_lt (le_of_lt ha) hb]
    decide

theorem headerCheck_sets_rate_witness :
    Atoi ((respWith "100" "50").Header.Get "RateLimit-Remaining") = (100, none) ∧
    Atoi ((respWith "100" "50").Header.Get "RateLimit-Reset") = (50, none) ∧
    (rateLimitHeaderCheck (some 0) (some (respWith "100" "50")) none world0).1
      = Result.ret (some (respWith "100" "50")) none ∧
    ((rateLimitHeaderCheck (some 0) (some (respWith "100" "50")) none world0).2.limiters 0).limit
      = 2 :=
  ⟨by decide, by decide,
    (headerCheck_sets_rate 0 (respWith "100" "50") world0 100 50
      (by decide) (by decide) (by decide)).1,
    (headerCheck_sets_rate 0 (respWith "100" "50") world0 100 50
      (by decide) (by decide) (by decide)).2.2.2.1 rfl rfl⟩

/-- C4, as stated, fails twice. A malformed `RateLimit-Remaining` is not looked
at when `RateLimit-Reset` is absent: the response comes back with a nil error.
And `-5` is not a non-negative integer, yet `Atoi` accepts it: the response
comes back with a nil error and the rate is set to `-5 / 10 = 0`. -/
theorem headerCheck_malformed_not_rejected :
    ((respRemainingOnly "abc").Header.Has (CanonicalMIMEHeaderKey "RateLimit-Remaining") = true ∧
      ¬ IsNonNegativeInteger ((respRemainingOnly "abc").Header.Get "RateLimit-Remaining") ∧
      (rateLimitHeaderCheck (some 0) (some (respRemainingOnly "abc")) none world0).1
        = Result.ret (some (respRemainingOnly "abc")) none) ∧
    ((respWith "-5" "10").Header.Has (CanonicalMIMEHeaderKey "RateLimit-Remaining") = true ∧
      ¬ IsNonNegativeInteger ((respWith "-5" "10").Header.Get "RateLimit-Remaining") ∧
      (rateLimitHeaderCheck (some 0) (some (respWith "-5" "10")) none world0).1
        = Result.ret (some (respWith "-5" "10")) none ∧
      ((rateLimitHeaderCheck (some 0) (some (respWith "-5" "10")) none world0).2.limiters 0).limit
        = 0) := by
  decide

/-- C4, amended: on a response with a nil error and a limiter bound, when both
rate-limit headers have a non-empty value and one of the two values is not an
optionally signed decimal integer within the `int` range (`strconv.Atoi`
rejects it), the hook drops the response and returns a header parse error: the
one for the remaining header when that value is rejected, the one for the reset
header otherwise. No limiter changes. -/
theorem headerCheck_parse_error (l : Nat) (r : Response) (w : World)
    (hrem : r.Header.Get "RateLimit-Remaining" ≠ "")
    (hreset : r.Header.Get "RateLimit-Reset" ≠ "")
    (hbad : atoiSpec (r.Header.Get "RateLimit-Remaining") = none ∨
      atoiSpec (r.Header.Get "RateLimit-Reset") = none) :
    (∃ e : Error, e.IsHeaderParseError = true ∧
      (rateLimitHeaderCheck (some l) (some r) none w).1 = Result.ret none (some e)) ∧
    (atoiSpec (r.Header.Get "RateLimit-Remaining") = none →
      ∃ nerr : NumError, (Atoi (r.Header.Get "RateLimit-Remaining")).2 = some nerr ∧
        (rateLimitHeaderCheck (some l) (some r) none w).1 = Result.ret none (some (Error.errorf
          "hyperate: failed to parse rate limit remaining header: %w" (Error.num nerr)))) ∧
    (atoiSpec (r.Header.Get "RateLimit-Remaining") ≠ none →
      ∃ nerr : NumError, (Atoi (r.Header.Get "RateLimit-Reset")).2 = some nerr ∧
        (rateLimitHeaderCheck (some l) (some r) none w).1 = Result.ret none (some (Error.errorf
          "hyperate: failed to parse rate limit reset header: %w" (Error.num nerr)))) ∧
    (rateLimitHeaderCheck (some l) (some r) none w).2.limiters = w.limiters := by
  have h1 := Atoi_spec (r.Header.Get "RateLimit-Remaining")
  have h2 := Atoi_spec (r.Header.Get "RateLimit-Reset")
  rcases ha : Atoi (r.Header.Get "RateLimit-Remaining") with ⟨a, ea⟩
  rcases hb : Atoi (r.Header.Get "RateLimit-Reset") with ⟨b, eb⟩
  rw [ha] at h1
  rw [hb] at h2
  cases ea with
  | some nerr =>
    have h3 := h1.2 (by simp)
    simp [rateLimitHeaderCheck, hrem, hreset, ha, World.log, Error.IsHeaderParseError, h3]
  | none =>
    have h3 := h1.1 rfl
    cases eb with
    | some nerr =>
      simp [rateLimitHeaderCheck, hrem, hreset, ha, hb, World.log, Error.IsHeaderParseError, h3]
    | none =>
      have h4 := h2.1 rfl
      rw [h3, h4] at hbad
      simp at hbad

theorem headerCheck_parse_error_witness :
    (respWith "100" "soon").Header.Get "RateLimit-Remaining" ≠ "" ∧
    (respWith "100" "soon").Header.Get "RateLimit-Reset" ≠ "" ∧
    atoiSpec ((respWith "100" "soon").Header.Get "RateLimit-Reset") = none ∧
    (∃ e : Error, e.IsHeaderParseError = true ∧
      (rateLimitHeaderCheck (some 0) (some (respWith "100" "soon")) none world0).1
        = Result.ret none (some e)) :=
  ⟨by decide, by decide, by decide,
    (headerCheck_parse_error 0 (respWith "100" "soon") world0 (by decide) (by decide)
      (Or.inr (by decide))).1⟩

/-- C8, as stated, fails: `Atoi` accepts a minus sign, so the values divided
need not be non-negative. With `RateLimit-Remaining: -100` and
`RateLimit-Reset: 50` a rate of 10 becomes `-100 / 50 = -2`. -/
theorem headerCheck_rate_negative :
    0 ≤ (world0.limiters 0).limit ∧
    Atoi ((respWith "-100" "50").Header.Get "RateLimit-Remaining") = (-100, none) ∧
    ((rateLimitHeaderCheck (some 0) (some (respWith "-100" "50")) none world0).2.limiters 0).limit
      = -2 ∧
    ¬ 0 ≤ ((rateLimitHeaderCheck (some 0) (some (respWith "-100" "50")) none
        world0).2.limiters 0).limit := by
  decide

/-- C8, amended: for every pair, every `lim` and every limiter whose rate is
non-negative before the call, the rate is non-negative after the hook has run,
provided the response does not carry a parsed remaining value at or below the
negation of a parsed positive reset value (`remaining ≤ -reset`). The values
divided are signed integers: `reset` is positive, `remaining` need not be. -/
theorem headerCheck_rate_nonneg (lim : Option Nat) (res : Option Response)
    (respErr : Option Error) (w : World) (q : Nat)
    (hsafe : ∀ (r : Response) (remaining reset : Int), res = some r →
      Atoi (r.Header.Get "RateLimit-Remaining") = (remaining, none) →
      Atoi (r.Header.Get "RateLimit-Reset") = (reset, none) → 0 < reset → -reset < remaining)
    (h0 : 0 ≤ (w.limiters q).limit) :
    0 ≤ ((rateLimitHeaderCheck lim res respErr w).2.limiters q).limit := by
  cases respErr with
  | some e => simpa only [rateLimitHeaderCheck] using h0
  | none =>
    cases lim with
    | none => simpa only [rateLimitHeaderCheck] using h0
    | some l =>
      cases res with
      | none => simpa only [rateLimitHeaderCheck] using h0
      | some r =>
        simp only [rateLimitHeaderCheck]
        split
        · split
          · exact h0
          · next remaining hrem =>
            split
            · exact h0
            · next reset hreset =>
              split
              · next hpos =>
                have hq :=
                  tdiv_nonneg_of_gt_neg hpos (hsafe r remaining reset rfl hrem hreset hpos)
                by_cases hql : q = l
                · subst hql
                  simpa [World.SetLimit, World.log, Limiter.SetLimit] using Limit.ofInt_nonneg hq
                · simpa [World.SetLimit, World.log, Function.update, hql] using h0
              · exact h0
        · exact h0

theorem headerCheck_rate_nonneg_witness :
    0 ≤ (world0.limiters 0).limit ∧
    0 ≤ ((rateLimitHeaderCheck (some 0) (some (respWith "-5" "10")) none
        world0).2.limiters 0).limit :=
  ⟨by decide,
    headerCheck_rate_nonneg (some 0) (some (respWith "-5" "10")) none world0 0
      (by
        intro r remaining reset hr hrem hreset _
        cases hr
        have h1 : Atoi ((respWith "-5" "10").Header.Get "RateLimit-Remaining") = (-5, none) := by
          decide
        have h2 : Atoi ((respWith "-5" "10").Header.Get "RateLimit-Reset") = (10, none) := by
          decide
        rw [h1] at hrem
        rw [h2] at hreset
        cases hrem
        cases hreset
        decide)
      (by decide)⟩

end Hyperate
